import Mathlib

/-!
Shallow embedding of the retail order-management core:
`models.py` (Client/Product/Order with validation, totals and dict
serialization), `file_database.py` (JSON-backed repository) and
`analysis.py` (aggregation pipeline), together with theorems settling
the specification claims.

Modelling conventions:
* Python `float` money amounts are modelled as `ℚ` (all claim inputs are
  exactly representable); `round(x, 2)` is modelled as round-half-to-even
  on `x * 100`, matching CPython on representable values.
* `datetime` values are modelled as an abstract instant `DT := Int`;
  `isoformat` / `fromisoformat` form a round trip in the standard
  library, so the dict form keeps the instant itself.
* Python `dict` literals and comprehensions are modelled as association
  lists built by left-to-right insertion where a later binding of the
  same key overwrites the earlier one (`dictInsert` / `dictGet`).
-/

namespace Spec2Proof

/-- Abstract instant standing for a Python `datetime` value. -/
abbrev DT := Int

/-- Insert a binding into an association list, Python-dict style: an
existing binding of the key is overwritten in place, a new key is
appended. -/
def dictInsert {α β : Type} [DecidableEq α] : List (α × β) → α → β → List (α × β)
  | [], k, v => [(k, v)]
  | (k0, v0) :: rest, k, v =>
      if k0 = k then (k, v) :: rest else (k0, v0) :: dictInsert rest k v

/-- Build a Python dict from a list of bindings, later bindings
overwriting earlier ones. -/
def dictOf {α β : Type} [DecidableEq α] (l : List (α × β)) : List (α × β) :=
  l.foldl (fun acc kv => dictInsert acc kv.1 kv.2) []

/-- Lookup in an association list (Python `d[k]` / `k in d`). -/
def dictGet {α β : Type} [DecidableEq α] : List (α × β) → α → Option β
  | [], _ => none
  | (k0, v0) :: rest, k => if k0 = k then some v0 else dictGet rest k

/-- Round-half-to-even to two decimal places, the behaviour of Python
`round(x, 2)` on exactly representable inputs. -/
def pyRound2 (x : ℚ) : ℚ :=
  let y : ℚ := x * 100
  let f : ℤ := ⌊y⌋
  let r : ℚ := y - f
  let n : ℤ :=
    if r < 1/2 then f
    else if 1/2 < r then f + 1
    else if f % 2 = 0 then f else f + 1
  (n : ℚ) / 100

/-- Python `max(xs, default=0)` over integers. -/
def pyMax : List Int → Int
  | [] => 0
  | x :: xs => xs.foldl max x

/-- Characters removed by Python `str.strip()` with no argument: the
code points for which `str.isspace()` holds (CPython, Unicode 14.0),
namely U+0009 to U+000D, U+001C to U+0020, U+0085, U+00A0, U+1680,
U+2000 to U+200A, U+2028, U+2029, U+202F, U+205F and U+3000. -/
def isPySpace (c : Char) : Bool :=
  let n := c.toNat
  (0x9 ≤ n && n ≤ 0xd) || (0x1c ≤ n && n ≤ 0x20) ||
  n == 0x85 || n == 0xa0 || n == 0x1680 ||
  (0x2000 ≤ n && n ≤ 0x200a) || n == 0x2028 || n == 0x2029 ||
  n == 0x202f || n == 0x205f || n == 0x3000

/-- Characters matched by `\d` in a CPython `str` regex (no `re.ASCII`):
the Unicode decimal digits, category Nd (Unicode 14.0), as runs of ten
consecutive code points (the mathematical block U+1D7CE to U+1D7FF is
five such runs). -/
def isPyDigit (c : Char) : Bool :=
  let n := c.toNat
  (0x30 ≤ n && n ≤ 0x39) || (0x660 ≤ n && n ≤ 0x669) ||
  (0x6f0 ≤ n && n ≤ 0x6f9) || (0x7c0 ≤ n && n ≤ 0x7c9) ||
  (0x966 ≤ n && n ≤ 0x96f) || (0x9e6 ≤ n && n ≤ 0x9ef) ||
  (0xa66 ≤ n && n ≤ 0xa6f) || (0xae6 ≤ n && n ≤ 0xaef) ||
  (0xb66 ≤ n && n ≤ 0xb6f) || (0xbe6 ≤ n && n ≤ 0xbef) ||
  (0xc66 ≤ n && n ≤ 0xc6f) || (0xce6 ≤ n && n ≤ 0xcef) ||
  (0xd66 ≤ n && n ≤ 0xd6f) || (0xde6 ≤ n && n ≤ 0xdef) ||
  (0xe50 ≤ n && n ≤ 0xe59) || (0xed0 ≤ n && n ≤ 0xed9) ||
  (0xf20 ≤ n && n ≤ 0xf29) || (0x1040 ≤ n && n ≤ 0x1049) ||
  (0x1090 ≤ n && n ≤ 0x1099) || (0x17e0 ≤ n && n ≤ 0x17e9) ||
  (0x1810 ≤ n && n ≤ 0x1819) || (0x1946 ≤ n && n ≤ 0x194f) ||
  (0x19d0 ≤ n && n ≤ 0x19d9) || (0x1a80 ≤ n && n ≤ 0x1a89) ||
  (0x1a90 ≤ n && n ≤ 0x1a99) || (0x1b50 ≤ n && n ≤ 0x1b59) ||
  (0x1bb0 ≤ n && n ≤ 0x1bb9) || (0x1c40 ≤ n && n ≤ 0x1c49) ||
  (0x1c50 ≤ n && n ≤ 0x1c59) || (0xa620 ≤ n && n ≤ 0xa629) ||
  (0xa8d0 ≤ n && n ≤ 0xa8d9) || (0xa900 ≤ n && n ≤ 0xa909) ||
  (0xa9d0 ≤ n && n ≤ 0xa9d9) || (0xa9f0 ≤ n && n ≤ 0xa9f9) ||
  (0xaa50 ≤ n && n ≤ 0xaa59) || (0xabf0 ≤ n && n ≤ 0xabf9) ||
  (0xff10 ≤ n && n ≤ 0xff19) || (0x104a0 ≤ n && n ≤ 0x104a9) ||
  (0x10d30 ≤ n && n ≤ 0x10d39) || (0x11066 ≤ n && n ≤ 0x1106f) ||
  (0x110f0 ≤ n && n ≤ 0x110f9) || (0x11136 ≤ n && n ≤ 0x1113f) ||
  (0x111d0 ≤ n && n ≤ 0x111d9) || (0x112f0 ≤ n && n ≤ 0x112f9) ||
  (0x11450 ≤ n && n ≤ 0x11459) || (0x114d0 ≤ n && n ≤ 0x114d9) ||
  (0x11650 ≤ n && n ≤ 0x11659) || (0x116c0 ≤ n && n ≤ 0x116c9) ||
  (0x11730 ≤ n && n ≤ 0x11739) || (0x118e0 ≤ n && n ≤ 0x118e9) ||
  (0x11950 ≤ n && n ≤ 0x11959) || (0x11c50 ≤ n && n ≤ 0x11c59) ||
  (0x11d50 ≤ n && n ≤ 0x11d59) || (0x11da0 ≤ n && n ≤ 0x11da9) ||
  (0x16a60 ≤ n && n ≤ 0x16a69) || (0x16ac0 ≤ n && n ≤ 0x16ac9) ||
  (0x16b50 ≤ n && n ≤ 0x16b59) || (0x1d7ce ≤ n && n ≤ 0x1d7ff) ||
  (0x1e140 ≤ n && n ≤ 0x1e149) || (0x1e2f0 ≤ n && n ≤ 0x1e2f9) ||
  (0x1e950 ≤ n && n ≤ 0x1e959) || (0x1fbf0 ≤ n && n ≤ 0x1fbf9)

/-- Python `str.strip()` on the character list: drop Python whitespace
from both ends. -/
def stripChars (l : List Char) : List Char :=
  ((l.dropWhile isPySpace).reverse.dropWhile isPySpace).reverse

/-- Python `str.strip()`. -/
def pyStrip (s : String) : String :=
  ⟨stripChars s.data⟩

/-- Python `str.lower()` (ASCII case folding suffices for the validated
fields). -/
def pyLower (s : String) : String :=
  ⟨s.data.map Char.toLower⟩

/-- Splitting a character list at every occurrence of a separator, the
semantics of Python `str.split(sep)` and of `String.splitOn`: `n`
separators yield `n + 1` (possibly empty) segments. -/
def splitCh (sep : Char) : List Char → List (List Char)
  | [] => [[]]
  | c :: rest =>
      match splitCh sep rest with
      | [] => [[]]
      | g :: gs => if c = sep then [] :: g :: gs else (c :: g) :: gs

namespace Models

/-- Characters admitted by the local part of the email regex
`[a-zA-Z0-9._%+-]`. -/
def isLocalChar (c : Char) : Bool :=
  c.isAlpha || c.isDigit || c = '.' || c = '_' || c = '%' || c = '+' || c = '-'

/-- Characters admitted by one label of the domain part of the email
regex, i.e. `[a-zA-Z0-9.-]` with the dot removed (the embedding splits
the domain at dots). -/
def isLabelChar (c : Char) : Bool :=
  c.isAlpha || c.isDigit || c = '-'

/-- Matching of `Client.phone_pattern = r"^\+7\d{10}$"`: a plus sign, a
seven, then exactly ten characters matched by `\d`, which on a CPython
`str` pattern means any Unicode decimal digit (`isPyDigit`), not only
ASCII `0-9`. -/
def phoneMatch (s : String) : Bool :=
  match s.toList with
  | c1 :: c2 :: rest =>
      c1 == '+' && c2 == '7' && rest.length == 10 && rest.all isPyDigit
  | _ => false

/-- Matching of
`Client.email_pattern = r"^[a-zA-Z0-9._%+-]+@[a-zA-Z0-9.-]+\.[a-zA-Z]{2,}$"`.
The local class excludes the at sign, so the string must contain exactly
one at sign; after it, the anchored suffix `\.[a-zA-Z]{2,}$` forces the
TLD to start at the last dot of the domain (an earlier dot would leave a
dot inside `[a-zA-Z]{2,}`), the part before that last dot to be a
nonempty run over `[a-zA-Z0-9.-]`, and the TLD to be two or more
letters. Note the domain class itself contains the dot, so consecutive
dots inside the domain body are matched by the regex. -/
def emailMatch (s : String) : Bool :=
  match splitCh '@' s.data with
  | [localPart, domain] =>
      let segs := splitCh '.' domain
      let tld := segs.getLastD []
      !localPart.isEmpty && localPart.all isLocalChar &&
      2 ≤ segs.length && segs.all (fun seg => seg.all isLabelChar) &&
      segs.dropLast ≠ [[]] &&
      tld.all Char.isAlpha && 2 ≤ tld.length
  | _ => false

/-- Client record (`models.Client`), fields as stored after the
constructor has trimmed `fio` and `phone` and trimmed and lower-cased
`email`. -/
structure Client where
  number : Int
  fio : String
  phone : String
  email : String
deriving Repr, DecidableEq

/-- Validation body of `Client.validate`: a nonempty phone must match
`phone_pattern`, a nonempty email must match `email_pattern`; the phone
check raises first. -/
def Client.validate (c : Client) : Except String Unit :=
  if c.phone ≠ "" && !phoneMatch c.phone then
    Except.error "Неверный телефон"
  else if c.email ≠ "" && !emailMatch c.email then
    Except.error "Неверный email"
  else
    Except.ok ()

/-- Constructor `Client.__init__`: trims `fio` and `phone`, trims and
lower-cases `email`, then runs `validate`, which raises on a bad field. -/
def Client.make (number : Int) (fio phone email : String) : Except String Client :=
  let c : Client := ⟨number, pyStrip fio, pyStrip phone, pyLower (pyStrip email)⟩
  match c.validate with
  | Except.ok _ => Except.ok c
  | Except.error e => Except.error e

/-- Plain-mapping form of a client (`Client.to_dict`). -/
structure ClientDict where
  number : Int
  fio : String
  phone : String
  email : String
deriving Repr, DecidableEq

/-- Serialization `Client.to_dict`. -/
def Client.toDict (c : Client) : ClientDict :=
  ⟨c.number, c.fio, c.phone, c.email⟩

/-- Deserialization `Client.from_dict`: re-runs the constructor, hence
re-trims, re-lower-cases and re-validates. -/
def Client.fromDict (d : ClientDict) : Except String Client :=
  Client.make d.number d.fio d.phone d.email

/-- Product record (`models.Product`), fields as stored after the
constructor has trimmed the name and coerced the price. -/
structure Product where
  name : String
  price : ℚ
  is_per_kg : Bool
deriving Repr, DecidableEq

/-- Constructor `Product.__init__` (name is trimmed, `float` coercion is
the identity on the rational model). -/
def Product.make (name : String) (price : ℚ) (is_per_kg : Bool) : Product :=
  ⟨pyStrip name, price, is_per_kg⟩

/-- Plain-mapping form of a product (`Product.to_dict`). -/
structure ProductDict where
  name : String
  price : ℚ
  is_per_kg : Bool
deriving Repr, DecidableEq

/-- Serialization `Product.to_dict`. -/
def Product.toDict (p : Product) : ProductDict :=
  ⟨p.name, p.price, p.is_per_kg⟩

/-- Deserialization `Product.from_dict` (the `is_per_kg` key is always
present in a dict produced by `to_dict`; the source defaults it to
`False` only when absent). -/
def Product.fromDict (d : ProductDict) : Product :=
  Product.make d.name d.price d.is_per_kg

/-- Order record (`models.Order`): unit items in `products_list`
(duplicates allowed, positional), weight items in `products_kg`, a
Python dict keyed by product. -/
structure Order where
  number : Int
  client : Client
  products_list : List Product
  products_kg : List (Product × ℚ)
  date : DT
deriving Repr, DecidableEq

/-- Derived total (`Order.total_cost`): unit prices plus price times
kilograms, rounded to two decimals. -/
def Order.total_cost (o : Order) : ℚ :=
  pyRound2 ((o.products_list.map Product.price).sum
    + (o.products_kg.map (fun pk => pk.1.price * pk.2)).sum)

/-- Plain-mapping form of an order (`Order.to_dict`): products are
referenced by name, the weight map becomes a name-to-kilograms dict. -/
structure OrderDict where
  number : Int
  client_number : Int
  products_list : List String
  products_kg : List (String × ℚ)
  date : DT
deriving Repr, DecidableEq

/-- Serialization `Order.to_dict`. -/
def Order.toDict (o : Order) : OrderDict :=
  ⟨o.number, o.client.number,
    o.products_list.map Product.name,
    dictOf (o.products_kg.map (fun pk => (pk.1.name, pk.2))),
    o.date⟩

/-- The name index `name_to_product = {p.name: p for p in products_catalog}`
of `Order.from_dict`: a dict comprehension, so a later catalog entry with
the same name overwrites an earlier one. -/
def nameToProduct (catalog : List Product) (name : String) : Option Product :=
  catalog.foldl (fun acc p => if p.name = name then some p else acc) none

/-- Deserialization `Order.from_dict(data, clients_map, products_catalog)`:
the client is looked up in `clients_map` (a `KeyError` on a missing key),
unit names absent from the name index are silently dropped, weight
entries are kept only when the name resolves and the resolved product is
per-kg; the weight map is rebuilt as a dict keyed by product. -/
def Order.fromDict (data : OrderDict) (clients_map : List (Int × Client))
    (catalog : List Product) : Except String Order :=
  match dictGet clients_map data.client_number with
  | none => Except.error "KeyError: client_number"
  | some client =>
      let pl := data.products_list.filterMap (nameToProduct catalog)
      let pkg := data.products_kg.foldl
        (fun acc nk =>
          match nameToProduct catalog nk.1 with
          | some p => if p.is_per_kg then dictInsert acc p nk.2 else acc
          | none => acc) []
      Except.ok ⟨data.number, client, pl, pkg, data.date⟩

end Models

namespace FileDB

open Models

/-- On-disk state of the data directory: the two JSON documents
(`clients.json`, `orders.json`), `none` when the file does not exist. -/
structure FS where
  clientsDoc : Option (List ClientDict)
  ordersDoc : Option (List OrderDict)
deriving Repr, DecidableEq

/-- Loader `FileDatabase._load_clients`: an absent file yields the empty
list; otherwise every record is rebuilt with `Client.from_dict`, and any
exception (an invalid record) makes the whole load fall back to the
empty list. -/
def loadClients (fs : FS) : List Client :=
  match fs.clientsDoc with
  | none => []
  | some data =>
      match data.mapM Client.fromDict with
      | Except.ok cs => cs
      | Except.error _ => []

/-- Loader `FileDatabase._load_orders`. An absent file or an empty
client list yields the empty list. Otherwise the source evaluates
`[Order.from_dict(o, clients_map) for o in data]`: on an empty document
the comprehension is empty, and on a nonempty document the very first
call raises `TypeError`, because `models.Order.from_dict` takes three
arguments (`data`, `clients_map`, `products_catalog`) and is called with
two — `FileDatabase` holds no product catalog at all. The exception is
swallowed by the `except` clause, which returns the empty list. Hence
every branch returns the empty list. -/
def loadOrders (fs : FS) (clients : List Client) : List Order :=
  match fs.ordersDoc with
  | none => []
  | some data =>
      if clients.isEmpty then []
      else if data.isEmpty then []
      else []  -- TypeError from the two-argument from_dict call, caught

/-- In-memory repository state together with its backing files
(`FileDatabase`). -/
structure DB where
  clients : List Client
  orders : List Order
  next_client_id : Int
  next_order_id : Int
  fs : FS
deriving Repr, DecidableEq

/-- Constructor `FileDatabase.__init__`: load both collections, then set
each next-identifier counter to `max(existing numbers, default 0) + 1`. -/
def initDB (fs : FS) : DB :=
  let cs := loadClients fs
  let os := loadOrders fs cs
  ⟨cs, os, pyMax (cs.map Client.number) + 1, pyMax (os.map Order.number) + 1, fs⟩

/-- Mutator `FileDatabase.add_client`: append, advance the counter to
`max(counter, number + 1)`, rewrite the whole clients document. -/
def addClient (db : DB) (c : Client) : DB :=
  let cs := db.clients ++ [c]
  { db with
    clients := cs
    next_client_id := max db.next_client_id (c.number + 1)
    fs := { db.fs with clientsDoc := some (cs.map Client.toDict) } }

/-- Mutator `FileDatabase.add_order`: append, advance the counter to
`max(counter, number + 1)`, rewrite the whole orders document. -/
def addOrder (db : DB) (o : Order) : DB :=
  let os := db.orders ++ [o]
  { db with
    orders := os
    next_order_id := max db.next_order_id (o.number + 1)
    fs := { db.fs with ordersDoc := some (os.map Order.toDict) } }

/-- A repository mutation, for reasoning about arbitrary call
sequences. -/
inductive Op where
  | client (c : Client)
  | order (o : Order)
deriving Repr, DecidableEq

/-- Application of one mutation. -/
def applyOp (db : DB) : Op → DB
  | Op.client c => addClient db c
  | Op.order o => addOrder db o

/-- Application of a sequence of mutations. -/
def runOps (db : DB) (ops : List Op) : DB :=
  ops.foldl applyOp db

end FileDB

namespace Analysis

/-- Product as declared in `analysis.py` (unit-priced only). -/
structure Product where
  name : String
  price : ℚ
deriving Repr, DecidableEq

/-- Client as declared in `analysis.py`. -/
structure Client where
  number : Int
  fio : String
deriving Repr, DecidableEq

/-- Order as declared in `analysis.py`: a flat list of products. -/
structure Order where
  number : Int
  client : Client
  products : List Product
  date : DT
deriving Repr, DecidableEq

/-- One row of the flat DataFrame built by `orders_to_df`. -/
structure Row where
  orderNumber : Int
  clientNumber : Int
  clientFIO : String
  productName : String
  productPrice : ℚ
  orderDate : DT
deriving Repr, DecidableEq

/-- Flattening `orders_to_df`: one row per product of each order. -/
def ordersToDf (orders : List Order) : List Row :=
  orders.flatMap (fun o =>
    o.products.map (fun p =>
      ⟨o.number, o.client.number, o.client.fio, p.name, p.price, o.date⟩))

/-- Grouping key of the client rankings: `(ClientNumber, ClientFIO)`. -/
abbrev ClientKey := Int × String

/-- Group keys of the DataFrame in first-seen order (the properties
proved below are invariant under the order pandas enumerates groups
in). -/
def clientKeys (rows : List Row) : List ClientKey :=
  (rows.map (fun r => (r.clientNumber, r.clientFIO))).dedup

/-- Number of distinct order numbers among the rows of one client group
(`groupby(...)["OrderNumber"].nunique()`). -/
def distinctOrderCount (rows : List Row) (k : ClientKey) : ℕ :=
  ((rows.filter (fun r => r.clientNumber = k.1 ∧ r.clientFIO = k.2)).map
    Row.orderNumber).dedup.length

/-- Revenue of one client group (`groupby(...)["Revenue"].sum()`, where
`Revenue` is a copy of `ProductPrice`). -/
def clientRevenue (rows : List Row) (k : ClientKey) : ℚ :=
  ((rows.filter (fun r => r.clientNumber = k.1 ∧ r.clientFIO = k.2)).map
    Row.productPrice).sum

/-- Descending order on the value component of a keyed aggregate. -/
def descBy {κ ν : Type} [LinearOrder ν] (a b : κ × ν) : Prop := b.2 ≤ a.2

instance {κ ν : Type} [LinearOrder ν] : DecidableRel (@descBy κ ν _) :=
  fun a b => inferInstanceAs (Decidable (b.2 ≤ a.2))

instance {κ ν : Type} [LinearOrder ν] : IsTotal (κ × ν) descBy :=
  ⟨fun a b => le_total b.2 a.2⟩

instance {κ ν : Type} [LinearOrder ν] : IsTrans (κ × ν) descBy :=
  ⟨fun _ _ _ hab hbc => le_trans hbc hab⟩

/-- Ranking `top_clients_by_orders`: empty frame gives an empty series;
otherwise group by client key, count distinct order numbers, sort
descending by count, keep the first `top`. -/
def top_clients_by_orders (orders : List Order) (top : ℕ) :
    List (ClientKey × ℕ) :=
  let df := ordersToDf orders
  if df.isEmpty then []
  else
    (((clientKeys df).map (fun k => (k, distinctOrderCount df k))).insertionSort
      descBy).take top

/-- Ranking `top_clients_by_revenue`: group by client key, sum the
per-row revenue, sort descending, keep the first `top`. -/
def top_clients_by_revenue (orders : List Order) (top : ℕ) :
    List (ClientKey × ℚ) :=
  let df := ordersToDf orders
  if df.isEmpty then []
  else
    (((clientKeys df).map (fun k => (k, clientRevenue df k))).insertionSort
      descBy).take top

/-- Product names occurring in the DataFrame, in first-seen order. -/
def productNames (rows : List Row) : List String :=
  (rows.map Row.productName).dedup

/-- Revenue of one product (`groupby("ProductName")["ProductPrice"].sum()`). -/
def productRevenue (rows : List Row) (name : String) : ℚ :=
  ((rows.filter (fun r => r.productName = name)).map Row.productPrice).sum

/-- Ranking `top_products_by_revenue`: group by product name, sum the
price column, sort descending, keep the first `top`. -/
def top_products_by_revenue (orders : List Order) (top : ℕ) :
    List (String × ℚ) :=
  let df := ordersToDf orders
  if df.isEmpty then []
  else
    (((productNames df).map (fun n => (n, productRevenue df n))).insertionSort
      descBy).take top

/-- Dates occurring in the DataFrame. -/
def orderDates (rows : List Row) : List DT :=
  (rows.map Row.orderDate).dedup

/-- Distinct order numbers on one day
(`groupby("OrderDate")["OrderNumber"].nunique()`). -/
def dailyOrderCount (rows : List Row) (d : DT) : ℕ :=
  ((rows.filter (fun r => r.orderDate = d)).map Row.orderNumber).dedup.length

/-- Time series `order_dynamics`: per-day distinct order counts (the
plotting side effects are outside the model). -/
def order_dynamics (orders : List Order) : List (DT × ℕ) :=
  let df := ordersToDf orders
  if df.isEmpty then []
  else (orderDates df).map (fun d => (d, dailyOrderCount df d))

end Analysis

/-! ## Helper lemmas -/

/-- Rounding to two decimals is the identity on amounts that are an
integer number of hundredths. -/
theorem pyRound2_of_int (q : ℚ) (n : ℤ) (h : q * 100 = (n : ℚ)) : pyRound2 q = q := by
  unfold pyRound2
  simp only [h]
  rw [Int.floor_intCast]
  simp
  field_simp
  linarith [h]

/-- Characterization of the phone regex: a match is exactly a string of
total length 12 that starts with a plus and a seven and continues with
Unicode decimal digits. -/
theorem phoneMatch_iff (s : String) : Models.phoneMatch s = true ↔
    (s.length = 12 ∧ s.toList.take 2 = ['+', '7'] ∧
      (s.toList.drop 2).all isPyDigit = true) := by
  have hlen : s.length = s.toList.length := rfl
  rw [hlen]
  unfold Models.phoneMatch
  rcases hl : s.toList with _ | ⟨c1, _ | ⟨c2, rest⟩⟩
  · simp
  · simp
  · show (c1 == '+' && c2 == '7' && rest.length == 10 && rest.all isPyDigit) = true ↔ _
    simp only [Bool.and_eq_true, beq_iff_eq, List.length_cons, List.take, List.drop,
      List.cons.injEq, and_true, Nat.beq_eq_true_eq]
    constructor
    · rintro ⟨⟨⟨h1, h2⟩, h3⟩, h4⟩
      exact ⟨by omega, ⟨h1, h2⟩, h4⟩
    · rintro ⟨h1, ⟨h2, h3⟩, h4⟩
      exact ⟨⟨⟨h2, h3⟩, by omega⟩, h4⟩

/-- Success of the client constructor is exactly the success of both
field validations on the stored (stripped, lower-cased) values. -/
theorem make_isOk_iff (n : Int) (fio phone email : String) :
    (Models.Client.make n fio phone email).isOk = true ↔
      ((pyStrip phone = "" ∨ Models.phoneMatch (pyStrip phone) = true) ∧
       (pyLower (pyStrip email) = "" ∨ Models.emailMatch (pyLower (pyStrip email)) = true)) := by
  unfold Models.Client.make Models.Client.validate
  dsimp only
  by_cases hp : pyStrip phone = "" <;>
    by_cases hpm : Models.phoneMatch (pyStrip phone) = true <;>
      by_cases he : pyLower (pyStrip email) = "" <;>
        by_cases hem : Models.emailMatch (pyLower (pyStrip email)) = true <;>
          simp [hp, hpm, he, hem, Except.isOk, Except.toBool]

/-- Any element of `dictInsert l k v` is the inserted binding or an
element of `l`. -/
theorem mem_dictInsert {α β : Type} [DecidableEq α] (l : List (α × β)) (k : α) (v : β)
    (x : α × β) (hx : x ∈ dictInsert l k v) : x = (k, v) ∨ x ∈ l := by
  induction l with
  | nil => simpa [dictInsert] using hx
  | cons kv rest ih =>
      obtain ⟨k0, v0⟩ := kv
      unfold dictInsert at hx
      by_cases h : k0 = k
      · simp [h] at hx
        rcases hx with h1 | h1
        · exact Or.inl (by simp [h1])
        · exact Or.inr (List.mem_cons_of_mem _ h1)
      · simp [h] at hx
        rcases hx with h1 | h1
        · exact Or.inr (by simp [h1])
        · rcases ih h1 with h2 | h2
          · exact Or.inl h2
          · exact Or.inr (List.mem_cons_of_mem _ h2)

/-- Inserting a fresh key appends the binding. -/
theorem dictInsert_of_fresh {α β : Type} [DecidableEq α] (l : List (α × β)) (k : α) (v : β)
    (h : k ∉ l.map Prod.fst) : dictInsert l k v = l ++ [(k, v)] := by
  induction l with
  | nil => rfl
  | cons kv rest ih =>
      obtain ⟨k0, v0⟩ := kv
      have hk0 : ¬k0 = k := by
        intro he
        exact h (by simp [he])
      unfold dictInsert
      rw [if_neg hk0, ih (by intro hm; exact h (by simp [hm]))]
      rfl

/-- Folding dict insertion over bindings whose keys are fresh and
pairwise distinct appends the bindings in order. -/
theorem foldl_dictInsert_of_nodup {α β : Type} [DecidableEq α]
    (l : List (α × β)) : ∀ acc : List (α × β),
    (acc.map Prod.fst ++ l.map Prod.fst).Nodup →
    l.foldl (fun a kv => dictInsert a kv.1 kv.2) acc = acc ++ l := by
  induction l with
  | nil => intro acc _; simp
  | cons kv rest ih =>
      intro acc h
      have hdisj := (List.nodup_append.mp h).2.2
      have hk : kv.1 ∉ acc.map Prod.fst := by
        intro hmem
        exact hdisj hmem (by simp)
      rw [List.foldl_cons, dictInsert_of_fresh acc kv.1 kv.2 hk,
        ih (acc ++ [kv]) (by simpa [List.append_assoc] using h)]
      simp

/-- A Python dict built from bindings with pairwise distinct keys keeps
the bindings as given. -/
theorem dictOf_of_nodup {α β : Type} [DecidableEq α] (l : List (α × β))
    (h : (l.map Prod.fst).Nodup) : dictOf l = l := by
  unfold dictOf
  simpa using foldl_dictInsert_of_nodup l [] (by simpa using h)

/-- The name index built by `Order.from_dict` returns the last catalog
entry carrying the requested name. -/
theorem nameToProduct_eq_findRev (catalog : List Models.Product) (name : String) :
    Models.nameToProduct catalog name =
      catalog.reverse.find? (fun p => p.name == name) := by
  induction catalog using List.reverseRecOn with
  | nil => rfl
  | append_singleton l p ih =>
      unfold Models.nameToProduct at ih ⊢
      rw [List.foldl_append, List.reverse_append]
      simp only [List.foldl_cons, List.foldl_nil, List.reverse_cons, List.singleton_append,
        List.find?]
      by_cases h : p.name = name
      · simp [h]
      · have hb : (p.name == name) = false := by simp [h]
        simp [h, hb]
        exact ih

/-- Under a catalog with pairwise distinct names, the name index
resolves the name of a member to that member. -/
theorem nameToProduct_of_mem (catalog : List Models.Product) (p : Models.Product)
    (hnd : (catalog.map Models.Product.name).Nodup) (hp : p ∈ catalog) :
    Models.nameToProduct catalog p.name = some p := by
  rw [nameToProduct_eq_findRev]
  have hexists : (catalog.reverse.find? (fun q => q.name == p.name)).isSome := by
    rw [List.find?_isSome]
    exact ⟨p, List.mem_reverse.mpr hp, by simp⟩
  obtain ⟨q, hq⟩ := Option.isSome_iff_exists.mp hexists
  have hqmem : q ∈ catalog := List.mem_reverse.mp (List.mem_of_find?_eq_some hq)
  have hqname : q.name = p.name := by simpa using List.find?_some hq
  have hqp : q = p := List.inj_on_of_nodup_map hnd hqmem hp hqname
  rw [hq, hqp]

/-- A `filterMap` whose function is `some` on every element of the list
is the identity. -/
theorem filterMap_eq_self {α : Type} (f : α → Option α) (l : List α)
    (h : ∀ x ∈ l, f x = some x) : l.filterMap f = l := by
  induction l with
  | nil => rfl
  | cons x rest ih =>
      rw [List.filterMap_cons, h x (by simp),
        ih (fun y hy => h y (List.mem_cons_of_mem _ hy))]

/-- Every product key produced by the weight-map fold of
`Order.from_dict` is per-kg. -/
theorem kgFold_per_kg (catalog : List Models.Product) (l : List (String × ℚ))
    (acc : List (Models.Product × ℚ))
    (hacc : ∀ pk ∈ acc, pk.1.is_per_kg = true) :
    ∀ pk ∈ l.foldl
      (fun acc nk =>
        match Models.nameToProduct catalog nk.1 with
        | some p => if p.is_per_kg then dictInsert acc p nk.2 else acc
        | none => acc) acc, pk.1.is_per_kg = true := by
  induction l generalizing acc with
  | nil => simpa using hacc
  | cons nk rest ih =>
      intro pk hpk
      refine ih _ ?_ pk hpk
      intro pk2 hpk2
      dsimp only at hpk2
      rcases hr : Models.nameToProduct catalog nk.1 with _ | p
      · simp only [hr] at hpk2
        exact hacc pk2 hpk2
      · simp only [hr] at hpk2
        by_cases hper : p.is_per_kg = true
        · rw [if_pos hper] at hpk2
          rcases mem_dictInsert _ _ _ _ hpk2 with h | h
          · rw [h]; exact hper
          · exact hacc pk2 h
        · rw [if_neg hper] at hpk2
          exact hacc pk2 hpk2

/-- On serialized weight entries whose products are catalog members
with the per-kg flag set, the weight-map fold of `Order.from_dict`
reduces to plain dict insertion of the original products. -/
theorem kgFold_resolves (catalog : List Models.Product)
    (kg : List (Models.Product × ℚ))
    (hnd : (catalog.map Models.Product.name).Nodup)
    (hkg : ∀ pk ∈ kg, pk.1 ∈ catalog ∧ pk.1.is_per_kg = true) :
    ∀ acc, (kg.map (fun pk => (pk.1.name, pk.2))).foldl
      (fun acc nk =>
        match Models.nameToProduct catalog nk.1 with
        | some p => if p.is_per_kg then dictInsert acc p nk.2 else acc
        | none => acc) acc
      = kg.foldl (fun acc pk => dictInsert acc pk.1 pk.2) acc := by
  induction kg with
  | nil => intro acc; rfl
  | cons pk rest ih =>
      intro acc
      have h1 := (hkg pk (by simp)).1
      have h2 := (hkg pk (by simp)).2
      simp only [List.map_cons, List.foldl_cons]
      rw [nameToProduct_of_mem catalog pk.1 hnd h1]
      dsimp only
      rw [if_pos h2]
      exact ih (fun q hq => hkg q (List.mem_cons_of_mem _ hq)) _

/-! ## Claim theorems -/

/-- C1: for every `Order`, `total_cost` is the rounded sum of the unit
prices plus the weight-priced amounts; the order with one laptop at
75000 and 3.5 kg of sugar at 50 per kg totals 75175; an order whose
unit list holds the same (two-decimal priced) product twice costs twice
that price. -/
theorem claim_C1_total_cost :
    (∀ o : Models.Order,
      o.total_cost = pyRound2 ((o.products_list.map Models.Product.price).sum
        + (o.products_kg.map (fun pk => pk.1.price * pk.2)).sum)) ∧
    Models.Order.total_cost
      ⟨1, ⟨1, "Иванов", "", ""⟩, [⟨"Ноутбук", 75000, false⟩],
        [(⟨"Сахар", 50, true⟩, 7/2)], 0⟩ = 75175 ∧
    (∀ (p : Models.Product) (m : ℤ), p.price * 100 = (m : ℚ) →
      ∀ (num : Int) (c : Models.Client) (d : DT),
        Models.Order.total_cost ⟨num, c, [p, p], [], d⟩ = 2 * p.price) := by
  refine ⟨fun o => rfl, ?_, ?_⟩
  · have h1 : Models.Order.total_cost
        ⟨1, ⟨1, "Иванов", "", ""⟩, [⟨"Ноутбук", 75000, false⟩],
          [(⟨"Сахар", 50, true⟩, 7/2)], 0⟩ = pyRound2 75175 := by
      simp [Models.Order.total_cost]
      norm_num
    rw [h1]
    exact pyRound2_of_int _ 7517500 (by norm_num)
  · intro p m hm num c d
    have h1 : Models.Order.total_cost ⟨num, c, [p, p], [], d⟩
        = pyRound2 (2 * p.price) := by
      simp [Models.Order.total_cost]
      ring_nf
    rw [h1]
    exact pyRound2_of_int _ (2 * m) (by push_cast; linarith)

/-- Witness for C1: a concrete order holding the laptop twice costs
twice 75000. -/
theorem claim_C1_witness :
    ((⟨"Ноутбук", 75000, false⟩ : Models.Product).price * 100 = ((7500000 : ℤ) : ℚ)) ∧
    Models.Order.total_cost
      ⟨2, ⟨1, "Иванов", "", ""⟩,
        [⟨"Ноутбук", 75000, false⟩, ⟨"Ноутбук", 75000, false⟩], [], 0⟩
      = 2 * (⟨"Ноутбук", 75000, false⟩ : Models.Product).price :=
  ⟨by norm_num,
    claim_C1_total_cost.2.2 ⟨"Ноутбук", 75000, false⟩ 7500000 (by norm_num)
      2 ⟨1, "Иванов", "", ""⟩ 0⟩

/-- C3: the validator accepts `user@mail..com` (the domain class of the
regex contains the dot, so consecutive dots match), although the claim,
the spec and the test suite of the repository demand rejection; the
other listed malformed addresses are rejected as claimed. -/
theorem claim_C3_email_consecutive_dots :
    Models.emailMatch "user@mail..com" = true ∧
    (Models.Client.make 1 "Тест" "+79991234567" "user@mail..com").isOk = true ∧
    Models.emailMatch "test@mail..ru" = true ∧
    (Models.Client.make 1 "Тест" "" "test@").isOk = false ∧
    (Models.Client.make 1 "Тест" "" "@mail.ru").isOk = false ∧
    (Models.Client.make 1 "Тест" "" "user@@mail.ru").isOk = false := by
  decide

/-- C4 counterexample: the constructor accepts the twelve-character
phone made of `+7` and the ten Arabic-Indic digits U+0660 to U+0669,
although none of its last ten characters is an ASCII decimal digit
`0`-`9`: `\d` in a CPython `str` pattern matches every Unicode decimal
digit, so this deviation from `+7` plus ten ASCII digits does not make
construction raise. -/
theorem claim_C4_counterexample :
    (Models.Client.make 1 "Тест" "+7٠١٢٣٤٥٦٧٨٩" "").isOk = true ∧
    "+7٠١٢٣٤٥٦٧٨٩".length = 12 ∧
    ("+7٠١٢٣٤٥٦٧٨٩".toList.drop 2).all Char.isDigit = false := by
  decide

/-- C4 amended: with the email left empty, client construction succeeds
exactly when the (stripped) phone is empty or is a plus, a seven and
ten Unicode decimal digits (the characters CPython `\d` matches),
twelve characters in all. -/
theorem claim_C4_phone_validation (n : Int) (fio phone : String)
    (h : pyStrip phone = phone) :
    (Models.Client.make n fio phone "").isOk = true ↔
      (phone = "" ∨ (phone.length = 12 ∧ phone.toList.take 2 = ['+', '7'] ∧
        (phone.toList.drop 2).all isPyDigit = true)) := by
  rw [make_isOk_iff, h]
  have he : pyLower (pyStrip "") = "" := rfl
  rw [he]
  simp only [true_or, and_true, or_true]
  rw [phoneMatch_iff]

/-- Witness for C4: the constructor accepts the canonical valid phone. -/
theorem claim_C4_witness :
    pyStrip "+79991234567" = "+79991234567" ∧
    ((Models.Client.make 5 "Иванов Иван" "+79991234567" "").isOk = true ↔
      ("+79991234567" = "" ∨ ("+79991234567".length = 12 ∧
        "+79991234567".toList.take 2 = ['+', '7'] ∧
        ("+79991234567".toList.drop 2).all isPyDigit = true))) :=
  ⟨by decide, claim_C4_phone_validation 5 "Иванов Иван" "+79991234567" (by decide)⟩

/-- C7: on an empty order collection each of the four aggregation
operations returns the empty result. -/
theorem claim_C7_empty_aggregations (top : ℕ) :
    Analysis.top_clients_by_orders [] top = [] ∧
    Analysis.top_clients_by_revenue [] top = [] ∧
    Analysis.top_products_by_revenue [] top = [] ∧
    Analysis.order_dynamics [] = [] :=
  ⟨rfl, rfl, rfl, rfl⟩

/-- C10 counterexample: on a catalog with two entries named `Молоко`,
the name index resolves to the second (last) entry, not the first, so
resolution does not prefer the first occurrence. -/
theorem claim_C10_counterexample :
    Models.nameToProduct [⟨"Молоко", 60, false⟩, ⟨"Молоко", 80, false⟩] "Молоко"
      = some ⟨"Молоко", 80, false⟩ ∧
    (⟨"Молоко", 80, false⟩ : Models.Product) ≠ ⟨"Молоко", 60, false⟩ := by
  decide

/-- C10 amended: the name index of `Order.from_dict` is a dict
comprehension, so a duplicated catalog name deterministically resolves
to the last occurrence in the catalog. -/
theorem claim_C10_last_occurrence (catalog : List Models.Product) (name : String) :
    Models.nameToProduct catalog name =
      catalog.reverse.find? (fun p => p.name == name) :=
  nameToProduct_eq_findRev catalog name

/-- C9: every order produced by `Order.from_dict` keeps the unit-mode
invariant (all weight-map keys are per-kg products), unresolved unit
names are dropped positionally rather than raising, and deserialization
succeeds whenever the client resolves, whatever the product names. -/
theorem claim_C9_weight_invariant :
    (∀ (data : Models.OrderDict) (cmap : List (Int × Models.Client))
        (catalog : List Models.Product) (o : Models.Order),
      Models.Order.fromDict data cmap catalog = Except.ok o →
      (∀ pk ∈ o.products_kg, pk.1.is_per_kg = true) ∧
      o.products_list = data.products_list.filterMap (Models.nameToProduct catalog)) ∧
    (∀ (data : Models.OrderDict) (cmap : List (Int × Models.Client))
        (catalog : List Models.Product) (c : Models.Client),
      dictGet cmap data.client_number = some c →
      (Models.Order.fromDict data cmap catalog).isOk = true) := by
  constructor
  · intro data cmap catalog o h
    unfold Models.Order.fromDict at h
    rcases hc : dictGet cmap data.client_number with _ | client
    · rw [hc] at h
      cases h
    · rw [hc] at h
      dsimp only at h
      injection h with h2
      constructor
      · intro pk hpk
        rw [← h2] at hpk
        exact kgFold_per_kg catalog data.products_kg []
          (by intro pk2 hk; cases hk) pk hpk
      · rw [← h2]
  · intro data cmap catalog c hc
    unfold Models.Order.fromDict
    rw [hc]
    rfl

/-- Witness for C9: a weight entry naming a unit-priced product and a
unit entry naming an unknown product are both dropped, the resulting
order satisfies the invariant, and deserialization succeeds. -/
theorem claim_C9_witness :
    (Models.Order.fromDict ⟨3, 1, ["Призрак"], [("Ноутбук", 2)], 0⟩
        [(1, ⟨1, "Иванов", "", ""⟩)] [⟨"Ноутбук", 75000, false⟩]
      = Except.ok ⟨3, ⟨1, "Иванов", "", ""⟩, [], [], 0⟩) ∧
    (∀ pk ∈ (⟨3, ⟨1, "Иванов", "", ""⟩, [], [], 0⟩ : Models.Order).products_kg,
      pk.1.is_per_kg = true) ∧
    (Models.Order.fromDict ⟨3, 1, ["Призрак"], [("Ноутбук", 2)], 0⟩
        [(1, ⟨1, "Иванов", "", ""⟩)] [⟨"Ноутбук", 75000, false⟩]).isOk = true :=
  ⟨by rfl,
   (claim_C9_weight_invariant.1 ⟨3, 1, ["Призрак"], [("Ноутбук", 2)], 0⟩
      [(1, ⟨1, "Иванов", "", ""⟩)] [⟨"Ноутбук", 75000, false⟩]
      ⟨3, ⟨1, "Иванов", "", ""⟩, [], [], 0⟩ (by rfl)).1,
   claim_C9_weight_invariant.2 ⟨3, 1, ["Призрак"], [("Ноутбук", 2)], 0⟩
      [(1, ⟨1, "Иванов", "", ""⟩)] [⟨"Ноутбук", 75000, false⟩]
      ⟨1, "Иванов", "", ""⟩ (by decide)⟩

/-- C2: round-trip laws. A valid client (fields fixed by stripping and
lower-casing, validation passing) is reproduced by
`from_dict(to_dict(c))`; a product with a trimmed name is reproduced
field for field; an order whose client resolves in the client map and
whose products all occur in a duplicate-free catalog (weight keys
per-kg and pairwise distinct) is reproduced, and its `total_cost` is
unchanged. -/
theorem claim_C2_roundtrip :
    (∀ c : Models.Client,
      pyStrip c.fio = c.fio → pyStrip c.phone = c.phone →
      pyLower (pyStrip c.email) = c.email → c.validate = Except.ok () →
      Models.Client.fromDict c.toDict = Except.ok c) ∧
    (∀ p : Models.Product, pyStrip p.name = p.name →
      Models.Product.fromDict p.toDict = p) ∧
    (∀ (o : Models.Order) (cmap : List (Int × Models.Client))
        (catalog : List Models.Product),
      dictGet cmap o.client.number = some o.client →
      (catalog.map Models.Product.name).Nodup →
      (∀ p ∈ o.products_list, p ∈ catalog) →
      (∀ pk ∈ o.products_kg, pk.1 ∈ catalog ∧ pk.1.is_per_kg = true) →
      (o.products_kg.map Prod.fst).Nodup →
      Models.Order.fromDict o.toDict cmap catalog = Except.ok o ∧
      ∀ o2, Models.Order.fromDict o.toDict cmap catalog = Except.ok o2 →
        o2.total_cost = o.total_cost) := by
  refine ⟨?_, ?_, ?_⟩
  · intro c h1 h2 h3 hv
    obtain ⟨n, fio, ph, em⟩ := c
    dsimp only at h1 h2 h3
    unfold Models.Client.fromDict Models.Client.toDict Models.Client.make
    dsimp only
    rw [h1, h2, h3, hv]
  · intro p h
    obtain ⟨nm, pr, kgflag⟩ := p
    dsimp only at h
    unfold Models.Product.fromDict Models.Product.toDict Models.Product.make
    dsimp only
    rw [h]
  · intro o cmap catalog hc hnd hpl hkg hkeys
    obtain ⟨num, client, pl, kg, d⟩ := o
    dsimp only at hc hpl hkg hkeys
    have e1 : (pl.map Models.Product.name).filterMap (Models.nameToProduct catalog)
        = pl := by
      rw [List.filterMap_map]
      apply filterMap_eq_self
      intro p hp
      exact nameToProduct_of_mem catalog p hnd (hpl p hp)
    have hnames : ((kg.map (fun pk => (pk.1.name, pk.2))).map Prod.fst).Nodup := by
      have hmm : (kg.map (fun pk => (pk.1.name, pk.2))).map Prod.fst
          = (kg.map Prod.fst).map Models.Product.name := by
        simp [List.map_map]
      rw [hmm]
      apply List.Nodup.map_on ?_ hkeys
      intro x hx y hy hxy
      obtain ⟨pkx, hpkx, hpkx2⟩ := List.mem_map.mp hx
      obtain ⟨pky, hpky, hpky2⟩ := List.mem_map.mp hy
      have hxc : x ∈ catalog := hpkx2 ▸ (hkg pkx hpkx).1
      have hyc : y ∈ catalog := hpky2 ▸ (hkg pky hpky).1
      exact List.inj_on_of_nodup_map hnd hxc hyc hxy
    have hmain : Models.Order.fromDict
        (Models.Order.toDict ⟨num, client, pl, kg, d⟩) cmap catalog
        = Except.ok ⟨num, client, pl, kg, d⟩ := by
      unfold Models.Order.toDict Models.Order.fromDict
      dsimp only
      rw [hc]
      dsimp only
      rw [dictOf_of_nodup _ hnames, kgFold_resolves catalog kg hnd hkg []]
      have e2 : kg.foldl (fun acc pk => dictInsert acc pk.1 pk.2) [] = kg := by
        have : kg.foldl (fun acc pk => dictInsert acc pk.1 pk.2) [] = dictOf kg := rfl
        rw [this, dictOf_of_nodup _ hkeys]
      rw [e1, e2]
    refine ⟨hmain, ?_⟩
    intro o2 h2
    rw [hmain] at h2
    injection h2 with h3
    rw [← h3]

/-- Witness for C2: a concrete client, product and single-order scenario
round-trips through the dict forms. -/
theorem claim_C2_witness :
    (Models.Client.fromDict
        (Models.Client.toDict ⟨1, "Иванов Иван", "+79991234567", "i@mail.ru"⟩)
      = Except.ok ⟨1, "Иванов Иван", "+79991234567", "i@mail.ru"⟩) ∧
    (Models.Product.fromDict (Models.Product.toDict ⟨"Сахар", 50, true⟩)
      = ⟨"Сахар", 50, true⟩) ∧
    (Models.Order.fromDict
        (Models.Order.toDict ⟨7, ⟨1, "Иванов Иван", "", ""⟩,
          [⟨"Ноутбук", 75000, false⟩], [(⟨"Сахар", 50, true⟩, 7/2)], 0⟩)
        [(1, ⟨1, "Иванов Иван", "", ""⟩)]
        [⟨"Ноутбук", 75000, false⟩, ⟨"Сахар", 50, true⟩]
      = Except.ok ⟨7, ⟨1, "Иванов Иван", "", ""⟩,
          [⟨"Ноутбук", 75000, false⟩], [(⟨"Сахар", 50, true⟩, 7/2)], 0⟩) :=
  ⟨claim_C2_roundtrip.1 ⟨1, "Иванов Иван", "+79991234567", "i@mail.ru"⟩
      (by decide) (by decide) (by decide) (by rfl),
   claim_C2_roundtrip.2.1 ⟨"Сахар", 50, true⟩ (by decide),
   (claim_C2_roundtrip.2.2 ⟨7, ⟨1, "Иванов Иван", "", ""⟩,
        [⟨"Ноутбук", 75000, false⟩], [(⟨"Сахар", 50, true⟩, 7/2)], 0⟩
      [(1, ⟨1, "Иванов Иван", "", ""⟩)]
      [⟨"Ноутбук", 75000, false⟩, ⟨"Сахар", 50, true⟩]
      (by decide) (by decide) (by decide) (by decide) (by decide)).1⟩


/-- Any initial value bounds the integer fold of `max` from below. -/
theorem foldl_max_init_le (ys : List Int) : ∀ a : Int, a ≤ ys.foldl max a := by
  induction ys with
  | nil => intro a; exact le_refl a
  | cons y ys ih => intro a; exact le_trans (le_max_left a y) (ih (max a y))

/-- Any member bounds the integer fold of `max` from below. -/
theorem mem_le_foldl_max (ys : List Int) : ∀ (a x : Int), x ∈ ys → x ≤ ys.foldl max a := by
  induction ys with
  | nil => intro a x hx; cases hx
  | cons y ys ih =>
      intro a x hx
      rcases List.mem_cons.mp hx with h | h
      · subst h
        exact le_trans (le_max_right a x) (foldl_max_init_le ys _)
      · exact ih _ x h

/-- The Python `max(..., default=0)` bounds every member. -/
theorem mem_le_pyMax (l : List Int) (x : Int) (hx : x ∈ l) : x ≤ pyMax l := by
  cases l with
  | nil => cases hx
  | cons y ys =>
      rcases List.mem_cons.mp hx with h | h
      · subst h
        exact foldl_max_init_le ys x
      · exact mem_le_foldl_max ys y x h

/-- The strict identifier bounds survive any sequence of repository
mutations. -/
theorem runOps_inv (ops : List FileDB.Op) : ∀ db : FileDB.DB,
    (∀ c ∈ db.clients, c.number < db.next_client_id) →
    (∀ o ∈ db.orders, o.number < db.next_order_id) →
    (∀ c ∈ (FileDB.runOps db ops).clients,
      c.number < (FileDB.runOps db ops).next_client_id) ∧
    (∀ o ∈ (FileDB.runOps db ops).orders,
      o.number < (FileDB.runOps db ops).next_order_id) := by
  induction ops with
  | nil =>
      intro db h1 h2
      exact ⟨h1, h2⟩
  | cons op rest ih =>
      intro db h1 h2
      have hstep1 : ∀ c ∈ (FileDB.applyOp db op).clients,
          c.number < (FileDB.applyOp db op).next_client_id := by
        cases op with
        | client c0 =>
            intro c hc
            simp only [FileDB.applyOp, FileDB.addClient, List.mem_append,
              List.mem_singleton] at hc ⊢
            rcases hc with h | h
            · exact lt_of_lt_of_le (h1 c h) (le_max_left _ _)
            · subst h
              exact lt_of_lt_of_le (by omega) (le_max_right _ _)
        | order o0 =>
            intro c hc
            simpa only [FileDB.applyOp, FileDB.addOrder] using h1 c hc
      have hstep2 : ∀ o ∈ (FileDB.applyOp db op).orders,
          o.number < (FileDB.applyOp db op).next_order_id := by
        cases op with
        | client c0 =>
            intro o ho
            simpa only [FileDB.applyOp, FileDB.addClient] using h2 o ho
        | order o0 =>
            intro o ho
            simp only [FileDB.applyOp, FileDB.addOrder, List.mem_append,
              List.mem_singleton] at ho ⊢
            rcases ho with h | h
            · exact lt_of_lt_of_le (h2 o h) (le_max_left _ _)
            · subst h
              exact lt_of_lt_of_le (by omega) (le_max_right _ _)
      exact ih (FileDB.applyOp db op) hstep1 hstep2

/-- C8: after any sequence of `add_client` and `add_order` calls the
next-identifier counters strictly dominate every stored identifier, and
at construction each counter is one more than the Python
`max(numbers, default=0)` over the loaded collection. -/
theorem claim_C8_id_allocation (fs : FileDB.FS) (ops : List FileDB.Op) :
    (∀ c ∈ (FileDB.runOps (FileDB.initDB fs) ops).clients,
      c.number < (FileDB.runOps (FileDB.initDB fs) ops).next_client_id) ∧
    (∀ o ∈ (FileDB.runOps (FileDB.initDB fs) ops).orders,
      o.number < (FileDB.runOps (FileDB.initDB fs) ops).next_order_id) ∧
    (FileDB.initDB fs).next_client_id
      = pyMax ((FileDB.loadClients fs).map Models.Client.number) + 1 ∧
    (FileDB.initDB fs).next_order_id
      = pyMax ((FileDB.loadOrders fs (FileDB.loadClients fs)).map
          Models.Order.number) + 1 := by
  have hinit1 : ∀ c ∈ (FileDB.initDB fs).clients,
      c.number < (FileDB.initDB fs).next_client_id := by
    intro c hc
    have hle : c.number ≤ pyMax ((FileDB.loadClients fs).map Models.Client.number) :=
      mem_le_pyMax _ _ (List.mem_map_of_mem _ hc)
    have heq : (FileDB.initDB fs).next_client_id
        = pyMax ((FileDB.loadClients fs).map Models.Client.number) + 1 := rfl
    omega
  have hinit2 : ∀ o ∈ (FileDB.initDB fs).orders,
      o.number < (FileDB.initDB fs).next_order_id := by
    intro o ho
    have hle : o.number ≤ pyMax ((FileDB.loadOrders fs (FileDB.loadClients fs)).map
        Models.Order.number) :=
      mem_le_pyMax _ _ (List.mem_map_of_mem _ ho)
    have heq : (FileDB.initDB fs).next_order_id
        = pyMax ((FileDB.loadOrders fs (FileDB.loadClients fs)).map
            Models.Order.number) + 1 := rfl
    omega
  obtain ⟨ha, hb⟩ := runOps_inv ops (FileDB.initDB fs) hinit1 hinit2
  exact ⟨ha, hb, rfl, rfl⟩

/-- Witness for C8: adding a client with the manually assigned high
identifier 10 to an empty repository leaves the counter above 10. -/
theorem claim_C8_witness :
    ((⟨10, "Иванов", "", ""⟩ : Models.Client) ∈
      (FileDB.runOps (FileDB.initDB ⟨none, none⟩)
        [FileDB.Op.client ⟨10, "Иванов", "", ""⟩]).clients) ∧
    (10 : Int) <
      (FileDB.runOps (FileDB.initDB ⟨none, none⟩)
        [FileDB.Op.client ⟨10, "Иванов", "", ""⟩]).next_client_id :=
  ⟨by decide,
   (claim_C8_id_allocation ⟨none, none⟩ [FileDB.Op.client ⟨10, "Иванов", "", ""⟩]).1
     ⟨10, "Иванов", "", ""⟩ (by decide)⟩

/-- C5: persisting one client and one order and then constructing a new
`FileDatabase` over the same files loses the orders: the reconstructed
repository has an empty order list although the orders document holds
the persisted order, because `_load_orders` calls `Order.from_dict`
with two arguments instead of three and the resulting `TypeError` is
swallowed into the empty-list fallback. -/
theorem claim_C5_reload_drops_orders :
    (FileDB.addOrder (FileDB.addClient (FileDB.initDB ⟨none, none⟩)
        ⟨1, "Иванов Иван", "", ""⟩)
        ⟨1, ⟨1, "Иванов Иван", "", ""⟩, [⟨"Ноутбук", 75000, false⟩], [], 0⟩).orders
      = [⟨1, ⟨1, "Иванов Иван", "", ""⟩, [⟨"Ноутбук", 75000, false⟩], [], 0⟩] ∧
    (FileDB.addOrder (FileDB.addClient (FileDB.initDB ⟨none, none⟩)
        ⟨1, "Иванов Иван", "", ""⟩)
        ⟨1, ⟨1, "Иванов Иван", "", ""⟩, [⟨"Ноутбук", 75000, false⟩], [], 0⟩).fs.ordersDoc
      = some [⟨1, 1, ["Ноутбук"], [], 0⟩] ∧
    (FileDB.initDB (FileDB.addOrder (FileDB.addClient (FileDB.initDB ⟨none, none⟩)
        ⟨1, "Иванов Иван", "", ""⟩)
        ⟨1, ⟨1, "Иванов Иван", "", ""⟩, [⟨"Ноутбук", 75000, false⟩], [], 0⟩).fs).clients
      = [⟨1, "Иванов Иван", "", ""⟩] ∧
    (FileDB.initDB (FileDB.addOrder (FileDB.addClient (FileDB.initDB ⟨none, none⟩)
        ⟨1, "Иванов Иван", "", ""⟩)
        ⟨1, ⟨1, "Иванов Иван", "", ""⟩, [⟨"Ноутбук", 75000, false⟩], [], 0⟩).fs).orders
      = [] := by
  refine ⟨by decide, by decide, by decide, by decide⟩

/-- C6: the top-clients-by-order-count ranking is sorted descending by
count, returns at most the requested number of groups, reports for each
listed group the number of distinct order numbers of that client (not
the row count), and in particular a single order with five line items
contributes exactly one to its client. -/
theorem claim_C6_top_clients_by_orders :
    (∀ (orders : List Analysis.Order) (top : ℕ),
      List.Sorted Analysis.descBy (Analysis.top_clients_by_orders orders top) ∧
      (Analysis.top_clients_by_orders orders top).length ≤ top ∧
      (∀ kc ∈ Analysis.top_clients_by_orders orders top,
        kc.2 = Analysis.distinctOrderCount (Analysis.ordersToDf orders) kc.1)) ∧
    Analysis.top_clients_by_orders
      [⟨101, ⟨1, "Иванов"⟩,
        [⟨"Ноутбук", 75000⟩, ⟨"Мышь", 3500⟩, ⟨"Клавиатура", 12000⟩,
         ⟨"Монитор", 28000⟩, ⟨"Коврик", 500⟩], 0⟩] 5
      = [((1, "Иванов"), 1)] := by
  constructor
  · intro orders top
    unfold Analysis.top_clients_by_orders
    by_cases hdf : (Analysis.ordersToDf orders).isEmpty = true
    · simp [hdf]
    · simp only [hdf, Bool.false_eq_true, if_false]
      refine ⟨?_, ?_, ?_⟩
      · exact (List.sorted_insertionSort Analysis.descBy _).sublist
          (List.take_sublist _ _)
      · exact List.length_take_le _ _
      · intro kc hkc
        have h1 := List.take_subset _ _ hkc
        simp only [List.mem_insertionSort] at h1
        obtain ⟨k, hk, hkeq⟩ := List.mem_map.mp h1
        rw [← hkeq]
  · decide

/-- Witness for C6: the single group of the five-line-item example
carries the distinct-order count of its client key. -/
theorem claim_C6_witness :
    ((1, "Иванов"), 1) ∈ Analysis.top_clients_by_orders
      [⟨101, ⟨1, "Иванов"⟩,
        [⟨"Ноутбук", 75000⟩, ⟨"Мышь", 3500⟩, ⟨"Клавиатура", 12000⟩,
         ⟨"Монитор", 28000⟩, ⟨"Коврик", 500⟩], 0⟩] 5 ∧
    (((1, "Иванов"), 1) : Analysis.ClientKey × ℕ).2
      = Analysis.distinctOrderCount (Analysis.ordersToDf
          [⟨101, ⟨1, "Иванов"⟩,
            [⟨"Ноутбук", 75000⟩, ⟨"Мышь", 3500⟩, ⟨"Клавиатура", 12000⟩,
             ⟨"Монитор", 28000⟩, ⟨"Коврик", 500⟩], 0⟩])
          (((1, "Иванов"), 1) : Analysis.ClientKey × ℕ).1 :=
  ⟨by decide,
   (claim_C6_top_clients_by_orders.1
      [⟨101, ⟨1, "Иванов"⟩,
        [⟨"Ноутбук", 75000⟩, ⟨"Мышь", 3500⟩, ⟨"Клавиатура", 12000⟩,
         ⟨"Монитор", 28000⟩, ⟨"Коврик", 500⟩], 0⟩] 5).2.2
     ((1, "Иванов"), 1) (by decide)⟩

end Spec2Proof
